import Mathlib

/-!
Shallow embedding of the `generic-read-buf` crate (`src/lib.rs`).

A `ReadBuf<S>` in the source holds a `filled : usize` index and a
`SimpleVec<S>` of bytes.  Its logical length (`self.buf.len()`) is the
initialization watermark `initialized_len`, and `self.buf.capacity()` is the
fixed capacity.  We model the byte storage by the list `buf` of the bytes in
the initialized prefix `[0, initialized_len)` (uninitialized bytes hold no
value, so they are simply absent from the model) together with the capacity
`cap`.  Bytes are modelled as `Nat`.

Operations that panic in Rust (`set_filled`, `add_filled`, `append`,
`initialize_unfilled_to` with out-of-range arguments) return `none`; the
unsafe `assume_init` is modelled with its documented precondition as a guard,
taking the list `vals` of byte values the caller has actually written past
the watermark.

The read-loop protocol (`default_read_buf`, `Read::read_buf`,
`Read::read_buf_exact`) is modelled against a byte source: one call to
`source.read(slice)` is a function `ReadFn` from the slice contents to either
`ok n out` (it returns the count `n` and leaves the slice holding `out`) or
`err e`.  A stateful source across the `read_buf_exact` loop is a finite
script `List ReadFn`, one entry per call; an exhausted script yields `none`
(the model makes no statement beyond the script).
-/

/-- Model of `std::io::ErrorKind`: the two kinds the code inspects or
creates, and a catch-all for every other kind. -/
inductive ErrorKind
  | interrupted
  | unexpectedEof
  | other (code : Nat)
deriving DecidableEq, Repr

/-- Model of `std::io::Error`: a kind plus a message. -/
structure IOErr where
  kind : ErrorKind
  msg : String
deriving DecidableEq, Repr

/-- Result of one call to the byte source's `read(slice)`: `ok n out` means
the call returned `Ok(n)` and the slice now holds `out`; `err e` means it
returned `Err(e)` (the slice is left as given). -/
inductive ReadResult
  | ok (n : Nat) (out : List Nat)
  | err (e : IOErr)
deriving DecidableEq, Repr

/-- One call to the byte source, as a function of the slice it is handed. -/
abbrev ReadFn := List Nat → ReadResult

/-- Model of `ReadBuf<S>`: `filled` is the `filled` field, `buf` the bytes of
the initialized prefix (so `buf.length` is `self.buf.len()`, the
initialization watermark), `cap` is `self.buf.capacity()`. -/
structure ReadBuf where
  filled : Nat
  buf : List Nat
  cap : Nat
deriving DecidableEq, Repr

namespace ReadBuf

/-- `ReadBuf::capacity`. -/
def capacity (b : ReadBuf) : Nat := b.cap

/-- `ReadBuf::filled_len`. -/
def filled_len (b : ReadBuf) : Nat := b.filled

/-- `ReadBuf::initialized_len` (`self.buf.len()`). -/
def initialized_len (b : ReadBuf) : Nat := b.buf.length

/-- `ReadBuf::remaining`: `self.capacity() - self.filled`. -/
def remaining (b : ReadBuf) : Nat := b.capacity - b.filled

/-- `ReadBuf::filled` (the view `&self.buf[..self.filled]`); named
`filled_slice` because `filled` is the field name. -/
def filled_slice (b : ReadBuf) : List Nat := b.buf.take b.filled

/-- `ReadBuf::initialized` (the view `self.buf.as_slice()`). -/
def initialized (b : ReadBuf) : List Nat := b.buf

/-- `ReadBuf::set_filled`: `assert!(n <= self.buf.len()); self.filled = n`.
`none` models the panic. -/
def set_filled (b : ReadBuf) (n : Nat) : Option ReadBuf :=
  if n ≤ b.buf.length then some { b with filled := n } else none

/-- `ReadBuf::add_filled`: `self.set_filled(self.filled + n)`. -/
def add_filled (b : ReadBuf) (n : Nat) : Option ReadBuf :=
  b.set_filled (b.filled + n)

/-- `ReadBuf::clear`: `self.set_filled(0)`. -/
def clear (b : ReadBuf) : Option ReadBuf :=
  b.set_filled 0

/-- `ReadBuf::assume_init`:
`self.buf.set_len_unchecked(max(self.buf.len(), self.filled + n))`.
`vals` are the byte values the caller actually wrote at positions
`[initialized_len, filled + n)`; the guard is the documented safety
precondition (those bytes really are written, and the new length fits the
storage), `none` modelling a precondition violation. -/
def assume_init (b : ReadBuf) (n : Nat) (vals : List Nat) : Option ReadBuf :=
  if b.filled + n ≤ b.cap ∧ (b.filled + n) - b.buf.length ≤ vals.length then
    some { b with buf := b.buf ++ vals.take ((b.filled + n) - b.buf.length) }
  else none

/-- `ReadBuf::initialize_unfilled_to`: asserts `remaining() >= n`; lets
`extra_init = self.buf.len() - self.filled`; if `n > extra_init` it writes
`n - extra_init` zero bytes into the uninitialized region and calls
`assume_init(n)` (here: appends that many zeros, setting the watermark to
`filled + n`); returns the view `&mut self.initialized_mut()[filled..filled+n]`. -/
def initialize_unfilled_to (b : ReadBuf) (n : Nat) : Option (ReadBuf × List Nat) :=
  if b.remaining ≥ n then
    let extra_init := b.buf.length - b.filled
    let b' : ReadBuf :=
      if n > extra_init then
        { b with buf := b.buf ++ List.replicate (n - extra_init) 0 }
      else b
    some (b', (b'.buf.drop b.filled).take n)
  else none

/-- `ReadBuf::initialize_unfilled`: `self.initialize_unfilled_to(self.remaining())`. -/
def initialize_unfilled (b : ReadBuf) : Option (ReadBuf × List Nat) :=
  b.initialize_unfilled_to b.remaining

/-- `ReadBuf::append`: asserts `remaining() >= buf.len()`; writes `bytes`
into the raw storage at positions `[filled, filled + bytes.length)`
(`write_slice(&mut self.unfilled_mut()[..buf.len()], buf)` followed by
`assume_init(buf.len())`, which sets the watermark to
`max(initialized_len, filled + bytes.length)`); then `add_filled(buf.len())`. -/
def append (b : ReadBuf) (bytes : List Nat) : Option ReadBuf :=
  if b.remaining ≥ bytes.length then
    add_filled
      { b with buf := b.buf.take b.filled ++ bytes ++ b.buf.drop (b.filled + bytes.length) }
      bytes.length
  else none

/-- The three-region invariant `0 ≤ filled_len ≤ initialized_len ≤ capacity`
(the first inequality is trivial over `Nat`). -/
def WF (b : ReadBuf) : Prop :=
  b.filled ≤ b.buf.length ∧ b.buf.length ≤ b.cap

instance (b : ReadBuf) : Decidable b.WF := by
  unfold WF; infer_instance

/-- `ReadArray::new_uninit_array`: empty storage of capacity `n`, `filled = 0`. -/
def new_uninit_array (n : Nat) : ReadBuf := ⟨0, [], n⟩

/-- `From<[u8; N]> for ReadArray<N>` (`ArrayVec::from_array`): fully
initialized storage, `filled = 0`. -/
def from_array (l : List Nat) : ReadBuf := ⟨0, l, l.length⟩

/-- `From<Vec<u8>> for ReadVec`: the vector's `len` bytes are initialized and
its capacity is `len` plus some surplus, `filled = 0`. -/
def from_vec (l : List Nat) (extra : Nat) : ReadBuf := ⟨0, l, l.length + extra⟩

/-- `From<&mut [u8]> for ReadSlice` (`SliceVec::full`): fully initialized,
capacity = length, `filled = 0`. -/
def from_slice (l : List Nat) : ReadBuf := ⟨0, l, l.length⟩

/-- `From<&mut [MaybeUninit<u8>]> for ReadSlice` / `From<Box<[MaybeUninit<u8>]>>`:
uninitialized storage of capacity `n`, `filled = 0`. -/
def from_uninit_slice (n : Nat) : ReadBuf := ⟨0, [], n⟩

/-- The zero-extension `initialize_unfilled_to n` performs on the watermark:
append zeros up to `filled + n` (a no-op when the watermark already covers
it).  Characterization helper, proved equal to the operation's state below. -/
def zfill (b : ReadBuf) (n : Nat) : ReadBuf :=
  { b with buf := b.buf ++ List.replicate ((b.filled + n) - b.buf.length) 0 }

end ReadBuf

/-- Outcome of a read-protocol call: the resulting buffer state on `Ok(())`,
the error and the buffer state on `Err(e)`, or a panic. -/
inductive Outcome
  | ok (b : ReadBuf)
  | err (e : IOErr) (b : ReadBuf)
  | panic
deriving DecidableEq, Repr

/-- After the source's `read` was handed the slice `view` (the initialized
unfilled region of `b₁`) and left it holding `out`, the buffer's bytes at
`[filled, filled + view.length)` are `out` (clamped to the slice length; for
an in-contract source `out.length = view.length` and nothing is clamped). -/
def write_back (b₁ : ReadBuf) (view out : List Nat) : ReadBuf :=
  { b₁ with
    buf := b₁.buf.take b₁.filled
        ++ (out ++ view.drop out.length).take view.length
        ++ b₁.buf.drop (b₁.filled + view.length) }

/-- `default_read_buf`: `let n = read(buf.initialize_unfilled())?;
buf.add_filled(n); Ok(())`.  The `?` on an error returns it with the buffer
as mutated so far (the zero-fill of `initialize_unfilled` has happened). -/
def default_read_buf (read : ReadFn) (b : ReadBuf) : Outcome :=
  match b.initialize_unfilled with
  | none => .panic
  | some (b₁, view) =>
    match read view with
    | .err e => .err e b₁
    | .ok n out =>
      match (write_back b₁ view out).add_filled n with
      | some b₃ => .ok b₃
      | none => .panic

namespace Read

/-- `Read::read_buf` (default implementation): delegates to `default_read_buf`. -/
def read_buf (read : ReadFn) (b : ReadBuf) : Outcome :=
  default_read_buf read b

/-- `Read::read_buf_exact`: `while remaining() > 0 { let prev_filled =
buf.filled().len(); match read_buf { Ok(()) if no progress => UnexpectedEof,
Err(Interrupted) => continue, Err(e) => return Err(e), Ok(()) => loop } }`.
The source script supplies one `ReadFn` per inner call; `none` means the
script ran out while the loop still needed the source. -/
def read_buf_exact (b : ReadBuf) : List ReadFn → Option Outcome
  | [] => if b.remaining = 0 then some (.ok b) else none
  | read :: rest =>
    if b.remaining = 0 then some (.ok b)
    else
      match read_buf read b with
      | .panic => some .panic
      | .err e b₁ =>
        if e.kind = .interrupted then read_buf_exact b₁ rest
        else some (.err e b₁)
      | .ok b₁ =>
        if b₁.filled_slice.length = b.filled_slice.length then
          some (.err ⟨.unexpectedEof, "failed to fill buffer"⟩ b₁)
        else read_buf_exact b₁ rest

end Read

/-- The public mutating operations a client can run on one cursor, for
stating properties of arbitrary operation sequences. -/
inductive Op
  | set_filled (n : Nat)
  | add_filled (n : Nat)
  | clear
  | assume_init (n : Nat) (vals : List Nat)
  | initialize_unfilled_to (n : Nat)
  | initialize_unfilled
  | append (bytes : List Nat)
  | read_buf (read : ReadFn)
  | read_buf_exact (script : List ReadFn)

/-- Run one operation.  `none` models a panic (or, for `read_buf_exact`, an
exhausted source script); an operation that returns an I/O error still leaves
a buffer state, which is the result. -/
def step (op : Op) (b : ReadBuf) : Option ReadBuf :=
  match op with
  | .set_filled n => b.set_filled n
  | .add_filled n => b.add_filled n
  | .clear => b.clear
  | .assume_init n vals => b.assume_init n vals
  | .initialize_unfilled_to n => (b.initialize_unfilled_to n).map Prod.fst
  | .initialize_unfilled => b.initialize_unfilled.map Prod.fst
  | .append bytes => b.append bytes
  | .read_buf read =>
    match default_read_buf read b with
    | .ok b' => some b'
    | .err _ b' => some b'
    | .panic => none
  | .read_buf_exact script =>
    match Read.read_buf_exact b script with
    | some (.ok b') => some b'
    | some (.err _ b') => some b'
    | _ => none

/-- Run a sequence of operations, stopping at the first panic. -/
def run (b : ReadBuf) : List Op → Option ReadBuf
  | [] => some b
  | op :: ops =>
    match step op b with
    | some b' => run b' ops
    | none => none

namespace ReadBuf

theorem set_filled_pos (b : ReadBuf) (n : Nat) (h : n ≤ b.buf.length) :
    b.set_filled n = some { b with filled := n } := by
  simp [set_filled, h]

theorem set_filled_neg (b : ReadBuf) (n : Nat) (h : b.buf.length < n) :
    b.set_filled n = none := by
  simp [set_filled]; omega

theorem zfill_buf_length (b : ReadBuf) (n : Nat) :
    (b.zfill n).buf.length = max b.buf.length (b.filled + n) := by
  simp [zfill]; omega

theorem zfill_filled (b : ReadBuf) (n : Nat) : (b.zfill n).filled = b.filled := rfl

theorem zfill_cap (b : ReadBuf) (n : Nat) : (b.zfill n).cap = b.cap := rfl

theorem initialize_unfilled_to_eq (b : ReadBuf) (n : Nat)
    (hf : b.filled ≤ b.buf.length) (h : n ≤ b.remaining) :
    b.initialize_unfilled_to n = some (b.zfill n, ((b.zfill n).buf.drop b.filled).take n) := by
  unfold initialize_unfilled_to
  rw [if_pos h]
  by_cases hc : n > b.buf.length - b.filled
  · have he : n - (b.buf.length - b.filled) = (b.filled + n) - b.buf.length := by omega
    simp only [if_pos hc, he, zfill]
  · have he : (b.filled + n) - b.buf.length = 0 := by omega
    simp only [if_neg hc, zfill, he, List.take_zero, List.replicate_zero, List.append_nil]

theorem initialize_unfilled_eq (b : ReadBuf) (hf : b.filled ≤ b.buf.length) :
    b.initialize_unfilled =
      some (b.zfill b.remaining, ((b.zfill b.remaining).buf.drop b.filled).take b.remaining) :=
  initialize_unfilled_to_eq b b.remaining hf (Nat.le_refl _)

theorem zfill_remaining_length (b : ReadBuf) (h : b.WF) :
    (b.zfill b.remaining).buf.length = b.cap := by
  obtain ⟨h1, h2⟩ := h
  rw [zfill_buf_length]
  simp [remaining, capacity]
  omega

theorem zfill_wf (b : ReadBuf) (n : Nat) (h : b.WF) (hn : n ≤ b.remaining) :
    (b.zfill n).WF := by
  obtain ⟨h1, h2⟩ := h
  constructor
  · rw [zfill_buf_length, zfill_filled]; omega
  · rw [zfill_buf_length, zfill_cap]
    simp [remaining, capacity] at hn
    omega

theorem zfill_prefix (b : ReadBuf) (n : Nat) :
    (b.zfill n).buf.take b.buf.length = b.buf := by
  simp [zfill, List.take_append_of_le_length]

end ReadBuf

namespace ReadBuf

theorem set_filled_inv (b : ReadBuf) (n : Nat) (b' : ReadBuf)
    (h : b.set_filled n = some b') : n ≤ b.buf.length ∧ b' = { b with filled := n } := by
  unfold set_filled at h
  split at h
  · exact ⟨by assumption, by injection h with h1; exact h1.symm⟩
  · exact absurd h (by simp)

theorem add_filled_inv (b : ReadBuf) (n : Nat) (b' : ReadBuf)
    (h : b.add_filled n = some b') :
    b.filled + n ≤ b.buf.length ∧ b' = { b with filled := b.filled + n } :=
  set_filled_inv b (b.filled + n) b' h

theorem zfill_filled_slice (b : ReadBuf) (n : Nat) (hf : b.filled ≤ b.buf.length) :
    (b.zfill n).filled_slice = b.filled_slice := by
  simp [zfill, filled_slice, List.take_append_of_le_length hf]

theorem view_length (b : ReadBuf) (h : b.WF) :
    (((b.zfill b.remaining).buf.drop b.filled).take b.remaining).length = b.remaining := by
  rw [List.length_take, List.length_drop, zfill_remaining_length b h]
  simp [remaining, capacity]

end ReadBuf

theorem clamp_length (view out : List Nat) :
    ((out ++ view.drop out.length).take view.length).length = view.length := by
  simp only [List.length_take, List.length_append, List.length_drop]
  omega

theorem write_back_filled (b₁ : ReadBuf) (view out : List Nat) :
    (write_back b₁ view out).filled = b₁.filled := rfl

theorem write_back_cap (b₁ : ReadBuf) (view out : List Nat) :
    (write_back b₁ view out).cap = b₁.cap := rfl

theorem write_back_buf_length (b₁ : ReadBuf) (view out : List Nat)
    (hf : b₁.filled ≤ b₁.buf.length) (hv : view.length = b₁.buf.length - b₁.filled) :
    (write_back b₁ view out).buf.length = b₁.buf.length := by
  simp only [write_back, List.length_append, List.length_take, List.length_drop,
    clamp_length]
  omega

theorem default_read_buf_err (read : ReadFn) (b b₁ : ReadBuf) (view : List Nat) (e : IOErr)
    (hinit : b.initialize_unfilled = some (b₁, view)) (hread : read view = .err e) :
    default_read_buf read b = .err e b₁ := by
  unfold default_read_buf
  rw [hinit]
  simp only
  rw [hread]

theorem default_read_buf_ok_eq (read : ReadFn) (b b₁ : ReadBuf) (view : List Nat)
    (n : Nat) (out : List Nat)
    (hinit : b.initialize_unfilled = some (b₁, view)) (hread : read view = .ok n out) :
    default_read_buf read b =
      match (write_back b₁ view out).add_filled n with
      | some b₃ => .ok b₃
      | none => .panic := by
  unfold default_read_buf
  rw [hinit]
  simp only
  rw [hread]

theorem initialize_unfilled_inv (b b₁ : ReadBuf) (view : List Nat) (h : b.WF)
    (hinit : b.initialize_unfilled = some (b₁, view)) :
    b₁ = b.zfill b.remaining ∧
      view = ((b.zfill b.remaining).buf.drop b.filled).take b.remaining := by
  rw [ReadBuf.initialize_unfilled_eq b h.1] at hinit
  have h1 := Option.some.inj hinit
  exact ⟨(congrArg Prod.fst h1).symm, (congrArg Prod.snd h1).symm⟩

theorem default_read_buf_ok_le (read : ReadFn) (b b₁ : ReadBuf) (view : List Nat)
    (n : Nat) (out : List Nat) (h : b.WF)
    (hinit : b.initialize_unfilled = some (b₁, view)) (hread : read view = .ok n out)
    (hn : n ≤ b.remaining) :
    default_read_buf read b = .ok { write_back b₁ view out with filled := b.filled + n } := by
  obtain ⟨hb₁, hview⟩ := initialize_unfilled_inv b b₁ view h hinit
  rw [default_read_buf_ok_eq read b b₁ view n out hinit hread]
  have hlen : (write_back b₁ view out).buf.length = b.cap := by
    rw [write_back_buf_length]
    · rw [hb₁, ReadBuf.zfill_remaining_length b h]
    · rw [hb₁, ReadBuf.zfill_filled, ReadBuf.zfill_remaining_length b h]
      exact le_trans h.1 h.2
    · rw [hview, hb₁, ReadBuf.zfill_filled, ReadBuf.zfill_remaining_length b h]
      exact ReadBuf.view_length b h
  have hfil : (write_back b₁ view out).filled = b.filled := by
    rw [write_back_filled, hb₁, ReadBuf.zfill_filled]
  have hguard : (write_back b₁ view out).filled + n ≤ (write_back b₁ view out).buf.length := by
    rw [hfil, hlen]
    have h2 := h.1
    have h3 := h.2
    simp [ReadBuf.remaining, ReadBuf.capacity] at hn
    omega
  rw [ReadBuf.add_filled, ReadBuf.set_filled_pos _ _ hguard, hfil]

theorem default_read_buf_ok_gt (read : ReadFn) (b b₁ : ReadBuf) (view : List Nat)
    (n : Nat) (out : List Nat) (h : b.WF)
    (hinit : b.initialize_unfilled = some (b₁, view)) (hread : read view = .ok n out)
    (hn : b.remaining < n) :
    default_read_buf read b = .panic := by
  obtain ⟨hb₁, hview⟩ := initialize_unfilled_inv b b₁ view h hinit
  rw [default_read_buf_ok_eq read b b₁ view n out hinit hread]
  have hlen : (write_back b₁ view out).buf.length = b.cap := by
    rw [write_back_buf_length]
    · rw [hb₁, ReadBuf.zfill_remaining_length b h]
    · rw [hb₁, ReadBuf.zfill_filled, ReadBuf.zfill_remaining_length b h]
      exact le_trans h.1 h.2
    · rw [hview, hb₁, ReadBuf.zfill_filled, ReadBuf.zfill_remaining_length b h]
      exact ReadBuf.view_length b h
  have hfil : (write_back b₁ view out).filled = b.filled := by
    rw [write_back_filled, hb₁, ReadBuf.zfill_filled]
  have hguard : (write_back b₁ view out).buf.length < (write_back b₁ view out).filled + n := by
    rw [hfil, hlen]
    simp [ReadBuf.remaining, ReadBuf.capacity] at hn
    omega
  rw [ReadBuf.add_filled, ReadBuf.set_filled_neg _ _ hguard]

theorem write_back_zfill_length (b : ReadBuf) (out : List Nat) (h : b.WF) :
    (write_back (b.zfill b.remaining)
      (((b.zfill b.remaining).buf.drop b.filled).take b.remaining) out).buf.length = b.cap := by
  rw [write_back_buf_length]
  · rw [ReadBuf.zfill_remaining_length b h]
  · rw [ReadBuf.zfill_filled, ReadBuf.zfill_remaining_length b h]
    exact le_trans h.1 h.2
  · rw [ReadBuf.zfill_filled, ReadBuf.zfill_remaining_length b h]
    exact ReadBuf.view_length b h

theorem write_back_zfill_filled (b : ReadBuf) (out : List Nat) :
    (write_back (b.zfill b.remaining)
      (((b.zfill b.remaining).buf.drop b.filled).take b.remaining) out).filled = b.filled := by
  rw [write_back_filled, ReadBuf.zfill_filled]

theorem default_read_buf_ok_inv (read : ReadFn) (b b' : ReadBuf) (h : b.WF)
    (hres : default_read_buf read b = .ok b') :
    b'.cap = b.cap ∧ b'.buf.length = b.cap ∧ b.filled ≤ b'.filled ∧ b'.WF ∧
      b.buf.length ≤ b'.buf.length := by
  have hinit := ReadBuf.initialize_unfilled_eq b h.1
  cases hread : read (((b.zfill b.remaining).buf.drop b.filled).take b.remaining) with
  | err e =>
    rw [default_read_buf_err read b _ _ e hinit hread] at hres
    exact absurd hres (by simp)
  | ok n out =>
    rw [default_read_buf_ok_eq read b _ _ n out hinit hread] at hres
    cases hadd : (write_back (b.zfill b.remaining)
        (((b.zfill b.remaining).buf.drop b.filled).take b.remaining) out).add_filled n with
    | none => rw [hadd] at hres; exact absurd hres (by simp)
    | some b₃ =>
      rw [hadd] at hres
      have hb₃ : b₃ = b' := by injection hres
      obtain ⟨hle, heq⟩ := ReadBuf.add_filled_inv _ n b₃ hadd
      rw [write_back_zfill_length b out h] at hle
      rw [write_back_zfill_filled b out] at hle
      have e1 : b'.filled = b.filled + n := by
        rw [← hb₃, heq, write_back_zfill_filled b out]
      have e2 : b'.buf.length = b.cap := by
        rw [← hb₃, heq]
        exact write_back_zfill_length b out h
      have e3 : b'.cap = b.cap := by
        rw [← hb₃, heq, write_back_cap, ReadBuf.zfill_cap]
      have h1 := h.1
      have h2 := h.2
      exact ⟨e3, e2, by omega, ⟨by omega, by omega⟩, by omega⟩

theorem default_read_buf_err_inv (read : ReadFn) (b b' : ReadBuf) (e : IOErr) (h : b.WF)
    (hres : default_read_buf read b = .err e b') :
    b' = b.zfill b.remaining := by
  have hinit := ReadBuf.initialize_unfilled_eq b h.1
  cases hread : read (((b.zfill b.remaining).buf.drop b.filled).take b.remaining) with
  | err e' =>
    rw [default_read_buf_err read b _ _ e' hinit hread] at hres
    injection hres with h1 h2
    exact h2.symm
  | ok n out =>
    rw [default_read_buf_ok_eq read b _ _ n out hinit hread] at hres
    cases hadd : (write_back (b.zfill b.remaining)
        (((b.zfill b.remaining).buf.drop b.filled).take b.remaining) out).add_filled n with
    | none => rw [hadd] at hres; exact absurd hres (by simp)
    | some b₃ => rw [hadd] at hres; exact absurd hres (by simp)

theorem zfill_remaining_wf (b : ReadBuf) (h : b.WF) : (b.zfill b.remaining).WF := by
  constructor
  · rw [ReadBuf.zfill_filled, ReadBuf.zfill_remaining_length b h]
    exact le_trans h.1 h.2
  · rw [ReadBuf.zfill_remaining_length b h, ReadBuf.zfill_cap]

theorem read_buf_eq (read : ReadFn) (b : ReadBuf) :
    Read.read_buf read b = default_read_buf read b := rfl

theorem rbe_nil_eq (b : ReadBuf) :
    Read.read_buf_exact b [] = if b.remaining = 0 then some (.ok b) else none := rfl

theorem rbe_cons_eq (b : ReadBuf) (read : ReadFn) (rest : List ReadFn)
    (hrem : ¬ b.remaining = 0) :
    Read.read_buf_exact b (read :: rest) =
      match Read.read_buf read b with
      | .panic => some .panic
      | .err e b₁ =>
        if e.kind = .interrupted then Read.read_buf_exact b₁ rest
        else some (.err e b₁)
      | .ok b₁ =>
        if b₁.filled_slice.length = b.filled_slice.length then
          some (.err ⟨.unexpectedEof, "failed to fill buffer"⟩ b₁)
        else Read.read_buf_exact b₁ rest := by
  conv_lhs => unfold Read.read_buf_exact
  rw [if_neg hrem]

theorem rbe_err_kind (script : List ReadFn) :
    ∀ (b : ReadBuf) (e : IOErr) (b' : ReadBuf),
      Read.read_buf_exact b script = some (.err e b') → ¬ e.kind = .interrupted := by
  induction script with
  | nil =>
    intro b e b' hres
    rw [rbe_nil_eq] at hres
    split at hres
    · exact absurd hres (by simp)
    · exact absurd hres (by simp)
  | cons read rest ih =>
    intro b e b' hres
    by_cases hrem : b.remaining = 0
    · unfold Read.read_buf_exact at hres
      rw [if_pos hrem] at hres
      exact absurd hres (by simp)
    · rw [rbe_cons_eq b read rest hrem] at hres
      split at hres
      · exact absurd hres (by simp)
      · rename_i e₁ b₁ heq
        split at hres
        · exact ih b₁ e b' hres
        · rename_i hkind
          have h1 : e₁ = e := by injection hres with h2; injection h2
          rw [← h1]
          exact hkind
      · rename_i b₁ heq
        split at hres
        · have h1 : (⟨.unexpectedEof, "failed to fill buffer"⟩ : IOErr) = e := by
            injection hres with h2; injection h2
          rw [← h1]
          simp
        · exact ih b₁ e b' hres

theorem rbe_inv (script : List ReadFn) :
    ∀ (b : ReadBuf), b.WF → ∀ (o : Outcome), Read.read_buf_exact b script = some o →
      (∀ b', o = .ok b' → b'.WF ∧ b.buf.length ≤ b'.buf.length) ∧
      (∀ e b', o = .err e b' → b'.WF ∧ b.buf.length ≤ b'.buf.length) := by
  induction script with
  | nil =>
    intro b hwf o hres
    rw [rbe_nil_eq] at hres
    split at hres
    · have h1 : Outcome.ok b = o := by injection hres
      constructor
      · intro b' h2
        rw [← h1] at h2
        have h3 : b = b' := by injection h2
        exact h3 ▸ ⟨hwf, Nat.le_refl _⟩
      · intro e b' h2
        rw [← h1] at h2
        exact absurd h2 (by simp)
    · exact absurd hres (by simp)
  | cons read rest ih =>
    intro b hwf o hres
    by_cases hrem : b.remaining = 0
    · unfold Read.read_buf_exact at hres
      rw [if_pos hrem] at hres
      have h1 : Outcome.ok b = o := by injection hres
      constructor
      · intro b' h2
        rw [← h1] at h2
        have h3 : b = b' := by injection h2
        exact h3 ▸ ⟨hwf, Nat.le_refl _⟩
      · intro e b' h2
        rw [← h1] at h2
        exact absurd h2 (by simp)
    · rw [rbe_cons_eq b read rest hrem] at hres
      split at hres
      · rename_i heq
        have h1 : Outcome.panic = o := by injection hres
        constructor
        · intro b' h2
          rw [← h1] at h2
          exact absurd h2 (by simp)
        · intro e b' h2
          rw [← h1] at h2
          exact absurd h2 (by simp)
      · rename_i e₁ b₁ heq
        rw [read_buf_eq] at heq
        have hb₁ : b₁ = b.zfill b.remaining := default_read_buf_err_inv read b b₁ e₁ hwf heq
        have hwf₁ : b₁.WF := hb₁ ▸ zfill_remaining_wf b hwf
        have hlen₁ : b.buf.length ≤ b₁.buf.length := by
          rw [hb₁, ReadBuf.zfill_remaining_length b hwf]
          exact hwf.2
        split at hres
        · obtain ⟨hok, herr⟩ := ih b₁ hwf₁ o hres
          constructor
          · intro b' h2
            obtain ⟨h3, h4⟩ := hok b' h2
            exact ⟨h3, Nat.le_trans hlen₁ h4⟩
          · intro e b' h2
            obtain ⟨h3, h4⟩ := herr e b' h2
            exact ⟨h3, Nat.le_trans hlen₁ h4⟩
        · have h1 : Outcome.err e₁ b₁ = o := by injection hres
          constructor
          · intro b' h2
            rw [← h1] at h2
            exact absurd h2 (by simp)
          · intro e b' h2
            rw [← h1] at h2
            have h3 : b₁ = b' := by injection h2
            exact h3 ▸ ⟨hwf₁, hlen₁⟩
      · rename_i b₁ heq
        rw [read_buf_eq] at heq
        obtain ⟨hcap, hlen, hfil, hwf₁, hmono⟩ := default_read_buf_ok_inv read b b₁ hwf heq
        split at hres
        · have h1 : Outcome.err ⟨.unexpectedEof, "failed to fill buffer"⟩ b₁ = o := by
            injection hres
          constructor
          · intro b' h2
            rw [← h1] at h2
            exact absurd h2 (by simp)
          · intro e b' h2
            rw [← h1] at h2
            have h3 : b₁ = b' := by injection h2
            exact h3 ▸ ⟨hwf₁, hmono⟩
        · obtain ⟨hok, herr⟩ := ih b₁ hwf₁ o hres
          constructor
          · intro b' h2
            obtain ⟨h3, h4⟩ := hok b' h2
            exact ⟨h3, Nat.le_trans hmono h4⟩
          · intro e b' h2
            obtain ⟨h3, h4⟩ := herr e b' h2
            exact ⟨h3, Nat.le_trans hmono h4⟩

theorem step_wf_mono (op : Op) (b b' : ReadBuf) (h : b.WF) (hs : step op b = some b') :
    b'.WF ∧ b.buf.length ≤ b'.buf.length := by
  have h1 := h.1
  have h2 := h.2
  cases op with
  | set_filled n =>
    simp only [step] at hs
    obtain ⟨hle, heq⟩ := ReadBuf.set_filled_inv b n b' hs
    subst heq
    exact ⟨⟨hle, h2⟩, Nat.le_refl _⟩
  | add_filled n =>
    simp only [step] at hs
    obtain ⟨hle, heq⟩ := ReadBuf.add_filled_inv b n b' hs
    subst heq
    exact ⟨⟨hle, h2⟩, Nat.le_refl _⟩
  | clear =>
    simp only [step, ReadBuf.clear] at hs
    obtain ⟨hle, heq⟩ := ReadBuf.set_filled_inv b 0 b' hs
    subst heq
    exact ⟨⟨Nat.zero_le _, h2⟩, Nat.le_refl _⟩
  | assume_init n vals =>
    simp only [step, ReadBuf.assume_init] at hs
    split at hs
    · rename_i hg
      have heq : { b with buf := b.buf ++ vals.take ((b.filled + n) - b.buf.length) } = b' := by
        injection hs
      subst heq
      constructor
      · constructor
        · show b.filled ≤ (b.buf ++ vals.take ((b.filled + n) - b.buf.length)).length
          simp only [List.length_append, List.length_take]
          omega
        · show (b.buf ++ vals.take ((b.filled + n) - b.buf.length)).length ≤ b.cap
          simp only [List.length_append, List.length_take]
          omega
      · show b.buf.length ≤ (b.buf ++ vals.take ((b.filled + n) - b.buf.length)).length
        simp only [List.length_append, List.length_take]
        omega
    · exact absurd hs (by simp)
  | initialize_unfilled_to n =>
    simp only [step] at hs
    by_cases hrem : n ≤ b.remaining
    · rw [ReadBuf.initialize_unfilled_to_eq b n h1 hrem] at hs
      simp only [Option.map_some'] at hs
      have heq : b.zfill n = b' := by injection hs
      subst heq
      refine ⟨ReadBuf.zfill_wf b n h hrem, ?_⟩
      rw [ReadBuf.zfill_buf_length]
      omega
    · unfold ReadBuf.initialize_unfilled_to at hs
      rw [if_neg hrem] at hs
      exact absurd hs (by simp)
  | initialize_unfilled =>
    simp only [step] at hs
    rw [ReadBuf.initialize_unfilled_eq b h1] at hs
    simp only [Option.map_some'] at hs
    have heq : b.zfill b.remaining = b' := by injection hs
    subst heq
    refine ⟨zfill_remaining_wf b h, ?_⟩
    rw [ReadBuf.zfill_remaining_length b h]
    exact h2
  | append bytes =>
    simp only [step, ReadBuf.append] at hs
    split at hs
    · rename_i hg
      simp only [ReadBuf.remaining, ReadBuf.capacity] at hg
      obtain ⟨hle, heq⟩ := ReadBuf.add_filled_inv _ bytes.length b' hs
      subst heq
      constructor
      · constructor
        · exact hle
        · show (b.buf.take b.filled ++ bytes ++ b.buf.drop (b.filled + bytes.length)).length ≤ b.cap
          simp only [List.length_append, List.length_take, List.length_drop]
          omega
      · show b.buf.length ≤
          (b.buf.take b.filled ++ bytes ++ b.buf.drop (b.filled + bytes.length)).length
        simp only [List.length_append, List.length_take, List.length_drop]
        omega
    · exact absurd hs (by simp)
  | read_buf read =>
    simp only [step] at hs
    split at hs
    · rename_i b₁ heq
      have heq' : b₁ = b' := by injection hs
      subst heq'
      obtain ⟨_, _, _, hwf, hmono⟩ := default_read_buf_ok_inv read b b₁ h heq
      exact ⟨hwf, hmono⟩
    · rename_i e b₁ heq
      have heq' : b₁ = b' := by injection hs
      subst heq'
      have hz := default_read_buf_err_inv read b b₁ e h heq
      subst hz
      refine ⟨zfill_remaining_wf b h, ?_⟩
      rw [ReadBuf.zfill_remaining_length b h]
      exact h2
    · exact absurd hs (by simp)
  | read_buf_exact script =>
    simp only [step] at hs
    split at hs
    · rename_i b₁ heq
      have heq' : b₁ = b' := by injection hs
      subst heq'
      exact (rbe_inv script b h _ heq).1 b₁ rfl
    · rename_i e b₁ heq
      have heq' : b₁ = b' := by injection hs
      subst heq'
      exact (rbe_inv script b h _ heq).2 e b₁ rfl
    · exact absurd hs (by simp)

theorem run_wf_mono (ops : List Op) :
    ∀ (b b' : ReadBuf), b.WF → run b ops = some b' →
      b'.WF ∧ b.buf.length ≤ b'.buf.length := by
  induction ops with
  | nil =>
    intro b b' h hr
    have heq : b = b' := by
      simp only [run] at hr
      injection hr
    subst heq
    exact ⟨h, Nat.le_refl _⟩
  | cons op ops ih =>
    intro b b' h hr
    simp only [run] at hr
    cases hst : step op b with
    | none => rw [hst] at hr; exact absurd hr (by simp)
    | some b₁ =>
      rw [hst] at hr
      obtain ⟨hw₁, hm₁⟩ := step_wf_mono op b b₁ h hst
      obtain ⟨hw₂, hm₂⟩ := ih b₁ b' hw₁ hr
      exact ⟨hw₂, Nat.le_trans hm₁ hm₂⟩

/-- C5: `set_filled(n)` sets `filled_len` to `n` (shrinking allowed) and
leaves `initialized_len` and the bytes untouched; it fails exactly when
`n > initialized_len` (`none` models the panic, which fires before any state
is written, so a failing call modifies nothing); `add_filled(n)` is
definitionally `set_filled(filled_len + n)`; `set_filled(initialized_len)`
succeeds, `set_filled(initialized_len + 1)` fails, and `add_filled(1)` on a
cursor with `initialized_len = filled_len = 0` fails. -/
theorem C5_set_filled_contract :
    (∀ (b : ReadBuf) (n : Nat), n ≤ b.initialized_len →
      b.set_filled n = some { b with filled := n }) ∧
    (∀ (b : ReadBuf) (n : Nat), b.initialized_len < n → b.set_filled n = none) ∧
    (∀ (b : ReadBuf) (n : Nat), b.add_filled n = b.set_filled (b.filled_len + n)) ∧
    (∀ b : ReadBuf, b.set_filled b.initialized_len
        = some { b with filled := b.initialized_len }) ∧
    (∀ b : ReadBuf, b.set_filled (b.initialized_len + 1) = none) ∧
    (∀ b : ReadBuf, b.initialized_len = 0 → b.filled_len = 0 → b.add_filled 1 = none) := by
  refine ⟨?_, ?_, ?_, ?_, ?_, ?_⟩
  · intro b n h
    exact ReadBuf.set_filled_pos b n h
  · intro b n h
    exact ReadBuf.set_filled_neg b n h
  · intro b n
    rfl
  · intro b
    exact ReadBuf.set_filled_pos b _ (Nat.le_refl _)
  · intro b
    exact ReadBuf.set_filled_neg b _ (by simp only [ReadBuf.initialized_len]; omega)
  · intro b hL hf
    unfold ReadBuf.add_filled
    refine ReadBuf.set_filled_neg b _ ?_
    simp only [ReadBuf.initialized_len] at hL
    simp only [ReadBuf.filled_len] at hf
    omega

/-- C5 witness: concrete instances of the set_filled / add_filled contract. -/
theorem C5_set_filled_contract_witness :
    1 ≤ (ReadBuf.from_array [8, 9]).initialized_len ∧
    (ReadBuf.from_array [8, 9]).set_filled 1 = some ⟨1, [8, 9], 2⟩ ∧
    (ReadBuf.from_array [8, 9]).initialized_len < 3 ∧
    (ReadBuf.from_array [8, 9]).set_filled 3 = none ∧
    (ReadBuf.new_uninit_array 4).initialized_len = 0 ∧
    (ReadBuf.new_uninit_array 4).filled_len = 0 ∧
    (ReadBuf.new_uninit_array 4).add_filled 1 = none := by
  refine ⟨by decide, ?_, by decide, ?_, by decide, by decide, ?_⟩
  · exact C5_set_filled_contract.1 (ReadBuf.from_array [8, 9]) 1 (by decide)
  · exact C5_set_filled_contract.2.1 (ReadBuf.from_array [8, 9]) 3 (by decide)
  · exact C5_set_filled_contract.2.2.2.2.2 (ReadBuf.new_uninit_array 4) (by decide) (by decide)

/-- C8: `clear()` never fails, sets `filled_len` to 0, leaves
`initialized_len` and every buffer byte unchanged, and afterwards
`remaining() = capacity` and `initialized()` shows the same bytes. -/
theorem C8_clear_contract (b : ReadBuf) :
    b.clear = some { b with filled := 0 } ∧
    ({ b with filled := 0 } : ReadBuf).filled_len = 0 ∧
    ({ b with filled := 0 } : ReadBuf).initialized_len = b.initialized_len ∧
    ({ b with filled := 0 } : ReadBuf).initialized = b.initialized ∧
    ({ b with filled := 0 } : ReadBuf).remaining = b.capacity := by
  refine ⟨ReadBuf.set_filled_pos b 0 (Nat.zero_le _), rfl, rfl, rfl, ?_⟩
  simp [ReadBuf.remaining, ReadBuf.capacity]

/-- C6 counterexample: on a cursor created from a fully initialized array
(`initialized_len = 2`), `append [7]` succeeds but `initialized_len` stays 2
instead of advancing to 3 as the claim requires — `assume_init` only takes a
`max`, it does not add. -/
theorem C6_counterexample :
    (ReadBuf.from_array [5, 5]).append [7] = some ⟨1, [7, 5], 2⟩ ∧
    ¬ (⟨1, [7, 5], 2⟩ : ReadBuf).initialized_len
        = (ReadBuf.from_array [5, 5]).initialized_len + 1 := by
  constructor
  · decide
  · decide

/-- C6 (amended): with `bytes.length ≤ remaining()`, `append bytes` succeeds,
the filled view over the newly added region equals `bytes`, `filled_len`
advances by `bytes.length`, and `initialized_len` becomes
`max initialized_len (filled_len + bytes.length)` (so it advances by the full
`bytes.length` only when no initialized-but-unfilled surplus covered the
region); `append` fails when `bytes.length > remaining()`. -/
theorem C6_append_round_trip (b : ReadBuf) (bytes : List Nat) (h : b.WF) :
    (bytes.length ≤ b.remaining →
      ∃ b', b.append bytes = some b' ∧
        b'.filled_slice.drop b.filled_len = bytes ∧
        b'.filled_len = b.filled_len + bytes.length ∧
        b'.initialized_len = max b.initialized_len (b.filled_len + bytes.length)) ∧
    (b.remaining < bytes.length → b.append bytes = none) := by
  have h1 := h.1
  constructor
  · intro hle
    have hta : (b.buf.take b.filled).length = b.filled := by
      rw [List.length_take]; omega
    have hXlen : (b.buf.take b.filled ++ bytes
        ++ b.buf.drop (b.filled + bytes.length)).length
        = max b.buf.length (b.filled + bytes.length) := by
      simp only [List.length_append, List.length_take, List.length_drop]
      omega
    have hguard : b.filled + bytes.length
        ≤ (b.buf.take b.filled ++ bytes ++ b.buf.drop (b.filled + bytes.length)).length := by
      rw [hXlen]
      omega
    refine ⟨{ b with
        filled := b.filled + bytes.length,
        buf := (b.buf.take b.filled ++ bytes
          ++ b.buf.drop (b.filled + bytes.length)) }, ?_, ?_, rfl, ?_⟩
    · unfold ReadBuf.append
      rw [if_pos hle]
      unfold ReadBuf.add_filled
      exact ReadBuf.set_filled_pos _ _ hguard
    · show (((b.buf.take b.filled ++ bytes)
          ++ b.buf.drop (b.filled + bytes.length)).take (b.filled + bytes.length)).drop b.filled
        = bytes
      rw [List.take_left' (by rw [List.length_append, hta])]
      exact List.drop_left' hta
    · exact hXlen
  · intro hlt
    unfold ReadBuf.append
    rw [if_neg (by omega)]

/-- C6 witness: the amended append contract at a concrete fresh cursor. -/
theorem C6_append_round_trip_witness :
    (ReadBuf.new_uninit_array 3).WF ∧
    [4, 5].length ≤ (ReadBuf.new_uninit_array 3).remaining ∧
    (∃ b', (ReadBuf.new_uninit_array 3).append [4, 5] = some b' ∧
      b'.filled_slice.drop (ReadBuf.new_uninit_array 3).filled_len = [4, 5] ∧
      b'.filled_len = (ReadBuf.new_uninit_array 3).filled_len + [4, 5].length ∧
      b'.initialized_len = max (ReadBuf.new_uninit_array 3).initialized_len
        ((ReadBuf.new_uninit_array 3).filled_len + [4, 5].length)) := by
  refine ⟨by decide, by decide, ?_⟩
  exact (C6_append_round_trip (ReadBuf.new_uninit_array 3) [4, 5] (by decide)).1 (by decide)

theorem zfill_of_covered (b : ReadBuf) (n : Nat) (hc : b.filled + n ≤ b.buf.length) :
    b.zfill n = b := by
  unfold ReadBuf.zfill
  have h0 : (b.filled + n) - b.buf.length = 0 := by omega
  rw [h0, List.replicate_zero, List.append_nil]

/-- C2: `initialized_len` never decreases across any sequence of public
operations on one cursor; `assume_init n` (under its precondition) sets it to
`max initialized_len (filled_len + n)`, and a call with `n` at or below the
already-initialized surplus is a no-op. -/
theorem C2_initialized_len_monotone :
    (∀ (ops : List Op) (b b' : ReadBuf), b.WF → run b ops = some b' →
      b.initialized_len ≤ b'.initialized_len) ∧
    (∀ (b : ReadBuf) (n : Nat) (vals : List Nat) (b' : ReadBuf),
      b.assume_init n vals = some b' →
      b'.initialized_len = max b.initialized_len (b.filled_len + n)) ∧
    (∀ (b : ReadBuf) (n : Nat) (vals : List Nat), b.WF →
      n ≤ b.initialized_len - b.filled_len → b.assume_init n vals = some b) := by
  refine ⟨?_, ?_, ?_⟩
  · intro ops b b' h hr
    exact (run_wf_mono ops b b' h hr).2
  · intro b n vals b' hs
    unfold ReadBuf.assume_init at hs
    split at hs
    · rename_i hg
      have heq : { b with buf := b.buf ++ vals.take ((b.filled + n) - b.buf.length) } = b' := by
        injection hs
      subst heq
      show (b.buf ++ vals.take ((b.filled + n) - b.buf.length)).length
        = max b.buf.length (b.filled + n)
      simp only [List.length_append, List.length_take]
      omega
    · exact absurd hs (by simp)
  · intro b n vals h hn
    simp only [ReadBuf.initialized_len, ReadBuf.filled_len] at hn
    have h1 := h.1
    have h2 := h.2
    unfold ReadBuf.assume_init
    rw [if_pos ⟨by omega, by omega⟩]
    have h0 : (b.filled + n) - b.buf.length = 0 := by omega
    rw [h0, List.take_zero, List.append_nil]

/-- C2 witness: monotonicity over a concrete run, the `max` law of
`assume_init`, and the surplus no-op, each at concrete inputs. -/
theorem C2_initialized_len_monotone_witness :
    (ReadBuf.new_uninit_array 4).WF ∧
    run (ReadBuf.new_uninit_array 4) [Op.append [1], Op.clear] = some ⟨0, [1], 4⟩ ∧
    (ReadBuf.new_uninit_array 4).initialized_len ≤ (⟨0, [1], 4⟩ : ReadBuf).initialized_len ∧
    (ReadBuf.from_vec [6] 2).assume_init 2 [7, 8] = some ⟨0, [6, 7], 3⟩ ∧
    (⟨0, [6, 7], 3⟩ : ReadBuf).initialized_len
      = max (ReadBuf.from_vec [6] 2).initialized_len
          ((ReadBuf.from_vec [6] 2).filled_len + 2) ∧
    (ReadBuf.from_array [3, 4]).WF ∧
    1 ≤ (ReadBuf.from_array [3, 4]).initialized_len - (ReadBuf.from_array [3, 4]).filled_len ∧
    (ReadBuf.from_array [3, 4]).assume_init 1 [] = some (ReadBuf.from_array [3, 4]) := by
  refine ⟨by decide, by decide, ?_, by decide, ?_, by decide, by decide, ?_⟩
  · exact C2_initialized_len_monotone.1 [Op.append [1], Op.clear]
      (ReadBuf.new_uninit_array 4) ⟨0, [1], 4⟩ (by decide) (by decide)
  · exact C2_initialized_len_monotone.2.1 (ReadBuf.from_vec [6] 2) 2 [7, 8]
      ⟨0, [6, 7], 3⟩ (by decide)
  · exact C2_initialized_len_monotone.2.2 (ReadBuf.from_array [3, 4]) 1 []
      (by decide) (by decide)

/-- C7: for `n ≤ remaining()`, `initialize_unfilled_to n` extends the
initialized region only with zero bytes (previously defined bytes are
untouched — the old prefix is preserved verbatim), raises `initialized_len`
to at least `filled_len + n` without moving `filled_len` or the capacity, and
returns the view over `[filled_len, filled_len + n)`; a second call with the
same or a smaller `n'` changes no state and returns the prefix of the same
defined content. -/
theorem C7_initialize_unfilled_to_contract (b : ReadBuf) (n : Nat)
    (h : b.WF) (hn : n ≤ b.remaining) :
    ∃ b' view, b.initialize_unfilled_to n = some (b', view) ∧
      b'.initialized = b.initialized
        ++ List.replicate (b'.initialized_len - b.initialized_len) 0 ∧
      b'.filled_len = b.filled_len ∧
      b'.capacity = b.capacity ∧
      b.filled_len + n ≤ b'.initialized_len ∧
      view = (b'.initialized.drop b.filled_len).take n ∧
      (∀ n', n' ≤ n → b'.initialize_unfilled_to n' = some (b', view.take n')) := by
  have h1 := h.1
  have h2 := h.2
  refine ⟨b.zfill n, ((b.zfill n).buf.drop b.filled).take n,
    ReadBuf.initialize_unfilled_to_eq b n h1 hn, ?_, rfl, rfl, ?_, rfl, ?_⟩
  · show (b.zfill n).buf
      = b.buf ++ List.replicate ((b.zfill n).buf.length - b.buf.length) 0
    rw [ReadBuf.zfill_buf_length]
    show b.buf ++ List.replicate ((b.filled + n) - b.buf.length) 0
      = b.buf ++ List.replicate (max b.buf.length (b.filled + n) - b.buf.length) 0
    have hc : (b.filled + n) - b.buf.length
        = max b.buf.length (b.filled + n) - b.buf.length := by omega
    rw [hc]
  · show b.filled + n ≤ (b.zfill n).buf.length
    rw [ReadBuf.zfill_buf_length]
    omega
  · intro n' hn'
    have hf' : (b.zfill n).filled ≤ (b.zfill n).buf.length := (ReadBuf.zfill_wf b n h hn).1
    have hrem' : n' ≤ (b.zfill n).remaining := by
      simp only [ReadBuf.remaining, ReadBuf.capacity, ReadBuf.zfill_cap, ReadBuf.zfill_filled]
      simp only [ReadBuf.remaining, ReadBuf.capacity] at hn
      omega
    rw [ReadBuf.initialize_unfilled_to_eq _ n' hf' hrem']
    have hzz : (b.zfill n).zfill n' = b.zfill n := by
      refine zfill_of_covered (b.zfill n) n' ?_
      rw [ReadBuf.zfill_buf_length, ReadBuf.zfill_filled]
      omega
    rw [hzz, ReadBuf.zfill_filled, List.take_take, Nat.min_eq_left hn']

/-- C7 witness: the initialize-then-reinitialize contract on a concrete
partially initialized cursor. -/
theorem C7_initialize_unfilled_to_contract_witness :
    (ReadBuf.from_vec [9] 2).WF ∧
    3 ≤ (ReadBuf.from_vec [9] 2).remaining ∧
    (∃ b' view, (ReadBuf.from_vec [9] 2).initialize_unfilled_to 3 = some (b', view) ∧
      b'.initialized = (ReadBuf.from_vec [9] 2).initialized
        ++ List.replicate (b'.initialized_len - (ReadBuf.from_vec [9] 2).initialized_len) 0 ∧
      b'.filled_len = (ReadBuf.from_vec [9] 2).filled_len ∧
      b'.capacity = (ReadBuf.from_vec [9] 2).capacity ∧
      (ReadBuf.from_vec [9] 2).filled_len + 3 ≤ b'.initialized_len ∧
      view = (b'.initialized.drop (ReadBuf.from_vec [9] 2).filled_len).take 3 ∧
      (∀ n', n' ≤ 3 → b'.initialize_unfilled_to n' = some (b', view.take n'))) := by
  refine ⟨by decide, by decide, ?_⟩
  exact C7_initialize_unfilled_to_contract (ReadBuf.from_vec [9] 2) 3 (by decide) (by decide)

/-- C1: every constructor establishes the three-region ordering
`0 ≤ filled_len ≤ initialized_len ≤ capacity`, and every sequence of valid
public operations (those that do not panic) preserves it at every step. -/
theorem C1_invariant_preservation :
    (∀ (ops : List Op) (b b' : ReadBuf), b.WF → run b ops = some b' → b'.WF) ∧
    (∀ n, (ReadBuf.new_uninit_array n).WF) ∧
    (∀ l, (ReadBuf.from_array l).WF) ∧
    (∀ (l : List Nat) (extra : Nat), (ReadBuf.from_vec l extra).WF) ∧
    (∀ l, (ReadBuf.from_slice l).WF) ∧
    (∀ n, (ReadBuf.from_uninit_slice n).WF) := by
  refine ⟨?_, ?_, ?_, ?_, ?_, ?_⟩
  · intro ops b b' h hr
    exact (run_wf_mono ops b b' h hr).1
  · intro n
    exact ⟨Nat.zero_le _, Nat.zero_le _⟩
  · intro l
    exact ⟨Nat.zero_le _, Nat.le_refl _⟩
  · intro l extra
    exact ⟨Nat.zero_le _, Nat.le_add_right _ _⟩
  · intro l
    exact ⟨Nat.zero_le _, Nat.le_refl _⟩
  · intro n
    exact ⟨Nat.zero_le _, Nat.zero_le _⟩

/-- C1 witness: the invariant survives a concrete operation sequence. -/
theorem C1_invariant_preservation_witness :
    (ReadBuf.new_uninit_array 4).WF ∧
    run (ReadBuf.new_uninit_array 4) [Op.append [1, 2], Op.clear, Op.set_filled 1]
      = some ⟨1, [1, 2], 4⟩ ∧
    (⟨1, [1, 2], 4⟩ : ReadBuf).WF := by
  refine ⟨by decide, by decide, ?_⟩
  exact C1_invariant_preservation.1 [Op.append [1, 2], Op.clear, Op.set_filled 1]
    (ReadBuf.new_uninit_array 4) ⟨1, [1, 2], 4⟩ (by decide) (by decide)

/-- C9: a successful `read_buf` — even one in which the source writes zero
bytes — leaves the whole buffer initialized (`initialized_len = capacity`),
because `default_read_buf` unconditionally calls `initialize_unfilled()`
before handing the slice to the source. -/
theorem C9_read_buf_full_initialization (read : ReadFn) (b b' : ReadBuf) (h : b.WF)
    (hres : Read.read_buf read b = .ok b') :
    b'.initialized_len = b.capacity := by
  rw [read_buf_eq] at hres
  exact (default_read_buf_ok_inv read b b' h hres).2.1

/-- C9 witness: a zero-byte successful read still initializes everything. -/
theorem C9_read_buf_full_initialization_witness :
    (ReadBuf.new_uninit_array 2).WF ∧
    Read.read_buf (fun _ => ReadResult.ok 0 []) (ReadBuf.new_uninit_array 2)
      = .ok ⟨0, [0, 0], 2⟩ ∧
    (⟨0, [0, 0], 2⟩ : ReadBuf).initialized_len = (ReadBuf.new_uninit_array 2).capacity := by
  refine ⟨by decide, by decide, ?_⟩
  exact C9_read_buf_full_initialization (fun _ => ReadResult.ok 0 [])
    (ReadBuf.new_uninit_array 2) ⟨0, [0, 0], 2⟩ (by decide) (by decide)

/-- C10: if the source reports a count `n` larger than the slice it was
handed (`n > remaining()`), `read_buf` hits the `set_filled` assertion
(reached through `add_filled`) and panics instead of recording unwritten
bytes; consequently no source return value can make a successful `read_buf`
produce `filled_len > initialized_len`. -/
theorem C10_overreporting_source_panics (read : ReadFn) (b b₁ : ReadBuf)
    (view : List Nat) (h : b.WF)
    (hinit : b.initialize_unfilled = some (b₁, view)) :
    (∀ (n : Nat) (out : List Nat), read view = .ok n out → b.remaining < n →
      Read.read_buf read b = .panic) ∧
    (∀ b', Read.read_buf read b = .ok b' → b'.filled_len ≤ b'.initialized_len) := by
  constructor
  · intro n out hread hn
    rw [read_buf_eq]
    exact default_read_buf_ok_gt read b b₁ view n out h hinit hread hn
  · intro b' hres
    rw [read_buf_eq] at hres
    exact ((default_read_buf_ok_inv read b b' h hres).2.2.2.1).1

/-- C10 witness: a source claiming 5 bytes on a 2-byte slice panics. -/
theorem C10_overreporting_source_panics_witness :
    (ReadBuf.new_uninit_array 2).WF ∧
    (ReadBuf.new_uninit_array 2).initialize_unfilled = some (⟨0, [0, 0], 2⟩, [0, 0]) ∧
    (ReadBuf.new_uninit_array 2).remaining < 5 ∧
    Read.read_buf (fun _ => ReadResult.ok 5 [1, 2]) (ReadBuf.new_uninit_array 2)
      = .panic := by
  refine ⟨by decide, by decide, by decide, ?_⟩
  exact (C10_overreporting_source_panics (fun _ => ReadResult.ok 5 [1, 2])
    (ReadBuf.new_uninit_array 2) ⟨0, [0, 0], 2⟩ [0, 0] (by decide) (by decide)).1
    5 [1, 2] rfl (by decide)

/-- C4: `read_buf` first obtains the whole remaining capacity as a fully
initialized view (`view.length = remaining()`, the view is exactly the
initialized unfilled region) and hands exactly that view to the source's
`read`; on success with an in-contract count `n` it advances `filled_len` by
exactly `n`; a source error is propagated verbatim and `filled_len` does not
advance. -/
theorem C4_read_buf_fill_some (read : ReadFn) (b b₁ : ReadBuf) (view : List Nat)
    (h : b.WF) (hinit : b.initialize_unfilled = some (b₁, view)) :
    view.length = b.remaining ∧
    b₁.initialized_len = b₁.capacity ∧
    view = b₁.initialized.drop b₁.filled_len ∧
    (∀ (n : Nat) (out : List Nat), read view = .ok n out → n ≤ b.remaining →
      ∃ b', Read.read_buf read b = .ok b' ∧ b'.filled_len = b.filled_len + n) ∧
    (∀ e, read view = .err e →
      Read.read_buf read b = .err e b₁ ∧ b₁.filled_len = b.filled_len) := by
  obtain ⟨hb₁, hview⟩ := initialize_unfilled_inv b b₁ view h hinit
  refine ⟨?_, ?_, ?_, ?_, ?_⟩
  · rw [hview]
    exact ReadBuf.view_length b h
  · rw [hb₁]
    show (b.zfill b.remaining).buf.length = (b.zfill b.remaining).cap
    rw [ReadBuf.zfill_remaining_length b h, ReadBuf.zfill_cap]
  · rw [hview, hb₁]
    show ((b.zfill b.remaining).buf.drop b.filled).take b.remaining
      = (b.zfill b.remaining).buf.drop b.filled
    refine List.take_of_length_le ?_
    rw [List.length_drop, ReadBuf.zfill_remaining_length b h]
    simp [ReadBuf.remaining, ReadBuf.capacity]
  · intro n out hread hn
    refine ⟨{ write_back b₁ view out with filled := b.filled + n }, ?_, rfl⟩
    rw [read_buf_eq]
    exact default_read_buf_ok_le read b b₁ view n out h hinit hread hn
  · intro e hread
    refine ⟨?_, ?_⟩
    · rw [read_buf_eq]
      exact default_read_buf_err read b b₁ view e hinit hread
    · rw [hb₁]
      rfl

/-- C4 witness: one successful and one failing concrete fill-some call. -/
theorem C4_read_buf_fill_some_witness :
    (ReadBuf.new_uninit_array 2).WF ∧
    (ReadBuf.new_uninit_array 2).initialize_unfilled = some (⟨0, [0, 0], 2⟩, [0, 0]) ∧
    ([0, 0] : List Nat).length = (ReadBuf.new_uninit_array 2).remaining ∧
    (∃ b', Read.read_buf (fun _ => ReadResult.ok 1 [7, 0]) (ReadBuf.new_uninit_array 2)
        = .ok b' ∧ b'.filled_len = (ReadBuf.new_uninit_array 2).filled_len + 1) ∧
    (Read.read_buf (fun _ => ReadResult.err ⟨ErrorKind.other 3, "x"⟩)
        (ReadBuf.new_uninit_array 2)
      = .err ⟨ErrorKind.other 3, "x"⟩ ⟨0, [0, 0], 2⟩ ∧
      (⟨0, [0, 0], 2⟩ : ReadBuf).filled_len = (ReadBuf.new_uninit_array 2).filled_len) := by
  refine ⟨by decide, by decide, ?_, ?_, ?_⟩
  · exact (C4_read_buf_fill_some (fun _ => ReadResult.ok 1 [7, 0])
      (ReadBuf.new_uninit_array 2) ⟨0, [0, 0], 2⟩ [0, 0] (by decide) (by decide)).1
  · exact (C4_read_buf_fill_some (fun _ => ReadResult.ok 1 [7, 0])
      (ReadBuf.new_uninit_array 2) ⟨0, [0, 0], 2⟩ [0, 0] (by decide) (by decide)).2.2.2.1
      1 [7, 0] rfl (by decide)
  · exact (C4_read_buf_fill_some (fun _ => ReadResult.err ⟨ErrorKind.other 3, "x"⟩)
      (ReadBuf.new_uninit_array 2) ⟨0, [0, 0], 2⟩ [0, 0] (by decide) (by decide)).2.2.2.2
      ⟨ErrorKind.other 3, "x"⟩ rfl

/-- C3: `read_buf_exact` never surfaces an interrupted-kind error to the
caller; with `remaining() > 0`, an interrupted source error is silently
retried (the iteration continues on the same cursor, whose only change is the
zero-fill `initialize_unfilled` already performed); any other source error is
returned verbatim and immediately, with the already-filled bytes retained
(`filled_len` and the filled view unchanged by the failing call); and a
successful source call reporting zero bytes makes `read_buf_exact` return the
locally synthesized "failed to fill buffer" unexpected-end-of-input error. -/
theorem C3_read_buf_exact_error_classification :
    (∀ (script : List ReadFn) (b : ReadBuf) (e : IOErr) (b' : ReadBuf),
      Read.read_buf_exact b script = some (.err e b') → ¬ e.kind = .interrupted) ∧
    (∀ (read : ReadFn) (rest : List ReadFn) (b b₁ : ReadBuf) (view : List Nat) (e : IOErr),
      b.WF → 0 < b.remaining → b.initialize_unfilled = some (b₁, view) →
      read view = .err e → e.kind = .interrupted →
      Read.read_buf_exact b (read :: rest) = Read.read_buf_exact b₁ rest) ∧
    (∀ (read : ReadFn) (rest : List ReadFn) (b b₁ : ReadBuf) (view : List Nat) (e : IOErr),
      b.WF → 0 < b.remaining → b.initialize_unfilled = some (b₁, view) →
      read view = .err e → ¬ e.kind = .interrupted →
      Read.read_buf_exact b (read :: rest) = some (.err e b₁) ∧
        b₁.filled_len = b.filled_len ∧ b₁.filled_slice = b.filled_slice) ∧
    (∀ (read : ReadFn) (rest : List ReadFn) (b b₁ : ReadBuf) (view out : List Nat),
      b.WF → 0 < b.remaining → b.initialize_unfilled = some (b₁, view) →
      read view = .ok 0 out →
      ∃ b₂, Read.read_buf_exact b (read :: rest)
          = some (.err ⟨.unexpectedEof, "failed to fill buffer"⟩ b₂) ∧
        b₂.filled_len = b.filled_len) := by
  refine ⟨?_, ?_, ?_, ?_⟩
  · intro script
    exact rbe_err_kind script
  · intro read rest b b₁ view e h hrem hinit hread hkind
    have hrem0 : ¬ b.remaining = 0 := by omega
    have hrb : Read.read_buf read b = .err e b₁ := by
      rw [read_buf_eq]
      exact default_read_buf_err read b b₁ view e hinit hread
    rw [rbe_cons_eq b read rest hrem0, hrb]
    exact if_pos hkind
  · intro read rest b b₁ view e h hrem hinit hread hkind
    have hrem0 : ¬ b.remaining = 0 := by omega
    have hrb : Read.read_buf read b = .err e b₁ := by
      rw [read_buf_eq]
      exact default_read_buf_err read b b₁ view e hinit hread
    obtain ⟨hb₁, hview⟩ := initialize_unfilled_inv b b₁ view h hinit
    refine ⟨?_, ?_, ?_⟩
    · rw [rbe_cons_eq b read rest hrem0, hrb]
      exact if_neg hkind
    · rw [hb₁]
      rfl
    · rw [hb₁]
      exact ReadBuf.zfill_filled_slice b b.remaining h.1
  · intro read rest b b₁ view out h hrem hinit hread
    have hrem0 : ¬ b.remaining = 0 := by omega
    have hrb : Read.read_buf read b
        = .ok { write_back b₁ view out with filled := b.filled + 0 } := by
      rw [read_buf_eq]
      exact default_read_buf_ok_le read b b₁ view 0 out h hinit hread (Nat.zero_le _)
    obtain ⟨hb₁, hview⟩ := initialize_unfilled_inv b b₁ view h hinit
    have hwb_len : (write_back b₁ view out).buf.length = b.cap := by
      rw [hb₁, hview]
      exact write_back_zfill_length b out h
    have hcond : ({ write_back b₁ view out with filled := b.filled + 0 }
        : ReadBuf).filled_slice.length = b.filled_slice.length := by
      show ((write_back b₁ view out).buf.take (b.filled + 0)).length
        = (b.buf.take b.filled).length
      rw [List.length_take, List.length_take, hwb_len]
      have h1 := h.1
      have h2 := h.2
      omega
    refine ⟨{ write_back b₁ view out with filled := b.filled + 0 }, ?_, rfl⟩
    rw [rbe_cons_eq b read rest hrem0, hrb]
    exact if_pos hcond

/-- C3 witness: the three outcome classes at concrete sources on a fresh
2-byte cursor: interrupted is retried, another error kind is surfaced
verbatim with the filled state intact, and a zero-byte success yields the
unexpected-end-of-input error. -/
theorem C3_read_buf_exact_error_classification_witness :
    ((ReadBuf.new_uninit_array 2).WF ∧ 0 < (ReadBuf.new_uninit_array 2).remaining ∧
      (ReadBuf.new_uninit_array 2).initialize_unfilled = some (⟨0, [0, 0], 2⟩, [0, 0])) ∧
    (¬ (⟨ErrorKind.other 7, "o"⟩ : IOErr).kind = ErrorKind.interrupted) ∧
    (Read.read_buf_exact (ReadBuf.new_uninit_array 2)
        [fun _ => ReadResult.err ⟨ErrorKind.interrupted, "i"⟩,
          fun _ => ReadResult.ok 2 [3, 4]]
      = Read.read_buf_exact (⟨0, [0, 0], 2⟩ : ReadBuf)
          [fun _ => ReadResult.ok 2 [3, 4]]) ∧
    (Read.read_buf_exact (ReadBuf.new_uninit_array 2)
        [fun _ => ReadResult.err ⟨ErrorKind.other 7, "o"⟩]
      = some (.err ⟨ErrorKind.other 7, "o"⟩ ⟨0, [0, 0], 2⟩) ∧
      (⟨0, [0, 0], 2⟩ : ReadBuf).filled_len = (ReadBuf.new_uninit_array 2).filled_len ∧
      (⟨0, [0, 0], 2⟩ : ReadBuf).filled_slice = (ReadBuf.new_uninit_array 2).filled_slice) ∧
    (∃ b₂, Read.read_buf_exact (ReadBuf.new_uninit_array 2) [fun _ => ReadResult.ok 0 []]
        = some (.err ⟨ErrorKind.unexpectedEof, "failed to fill buffer"⟩ b₂) ∧
      b₂.filled_len = (ReadBuf.new_uninit_array 2).filled_len) := by
  refine ⟨⟨by decide, by decide, by decide⟩, ?_, ?_, ?_, ?_⟩
  · exact C3_read_buf_exact_error_classification.1
      [fun _ => ReadResult.err ⟨ErrorKind.other 7, "o"⟩] (ReadBuf.new_uninit_array 2)
      ⟨ErrorKind.other 7, "o"⟩ ⟨0, [0, 0], 2⟩ (by decide)
  · exact C3_read_buf_exact_error_classification.2.1
      (fun _ => ReadResult.err ⟨ErrorKind.interrupted, "i"⟩)
      [fun _ => ReadResult.ok 2 [3, 4]] (ReadBuf.new_uninit_array 2) ⟨0, [0, 0], 2⟩
      [0, 0] ⟨ErrorKind.interrupted, "i"⟩ (by decide) (by decide) (by decide) rfl (by decide)
  · exact C3_read_buf_exact_error_classification.2.2.1
      (fun _ => ReadResult.err ⟨ErrorKind.other 7, "o"⟩) [] (ReadBuf.new_uninit_array 2)
      ⟨0, [0, 0], 2⟩ [0, 0] ⟨ErrorKind.other 7, "o"⟩
      (by decide) (by decide) (by decide) rfl (by decide)
  · exact C3_read_buf_exact_error_classification.2.2.2
      (fun _ => ReadResult.ok 0 []) [] (ReadBuf.new_uninit_array 2) ⟨0, [0, 0], 2⟩
      [0, 0] [] (by decide) (by decide) (by decide) rfl
